import Mathlib

/-!
Verification of the flersucker transcription orchestrator.

This file shallowly embeds the Python sources (`src/consensus.py`,
`src/processor.py`, `src/playlist.py`, `src/download.py`, `src/utils.py`,
`src/workflow.py`, `src/transcribe.py`) as executable Lean definitions and
proves or refutes the specification claims about them.

Python strings are modelled as `List Char`; Python dicts with string keys
as ordered association lists (Python dicts preserve insertion order);
filesystem state as the list of existing file paths.
-/

set_option maxHeartbeats 1000000

/-- A Python string: a list of characters. -/
abbrev Txt := List Char

/-! ## Python string primitives -/

/-- Helper for `str.split()` with no separator: split on runs of whitespace,
dropping empty tokens.  `cur` is the (reversed) token currently being read. -/
def pySplitAux : List Char → List Char → List Txt
  | [], cur => if cur = [] then [] else [cur.reverse]
  | c :: rest, cur =>
    if c.isWhitespace then
      if cur = [] then pySplitAux rest [] else cur.reverse :: pySplitAux rest []
    else
      pySplitAux rest (c :: cur)

/-- Python `text.split()`: split on whitespace, no empty tokens. -/
def pySplit (s : Txt) : List Txt := pySplitAux s []

/-- Remove a trailing run of whitespace (the `rstrip` half of `str.strip()`). -/
def dropTrailingWS : Txt → Txt
  | [] => []
  | c :: rest =>
    match dropTrailingWS rest with
    | [] => if c.isWhitespace then [] else [c]
    | r => c :: r

/-- Python `str.strip()`: remove leading and trailing whitespace. -/
def pyStrip (s : Txt) : Txt := dropTrailingWS (s.dropWhile Char.isWhitespace)

/-- Python `str.lower()` applied to one token (ASCII case folding). -/
def pyLower (w : Txt) : Txt := w.map Char.toLower

/-! ## Data model -/

/-- A transcript record as loaded from a transcript JSON file; only the
fields the consensus builder reads (`text`, `language`).  `none` models an
absent key. -/
structure Transcription where
  text : Option Txt
  language : Option Txt
deriving DecidableEq

/-- `consensus.extract_text`: `transcription.get('text', '').strip()`. -/
def extract_text (t : Transcription) : Txt := pyStrip (t.text.getD [])

/-! ## Word-level consensus (`consensus.create_word_level_consensus`) -/

/-- First-seen-order deduplication, as done by `collections.Counter`'s
insertion order. -/
def dedupFirst (l : List Txt) : List Txt :=
  l.foldl (fun acc a => if a ∈ acc then acc else acc ++ [a]) []

/-- `Counter(candidates).most_common(1)[0][0]`: the element with the highest
occurrence count, ties broken by first-seen order (`Counter` preserves
insertion order and `most_common`'s sort is stable).  `none` iff the list is
empty. -/
def mostCommon1 (l : List Txt) : Option Txt :=
  (dedupFirst l).foldl
    (fun best a =>
      match best with
      | none => some a
      | some b => if l.count a > l.count b then some a else some b)
    none

/-- `consensus.create_word_level_consensus`, translated clause by clause from
the source: empty input gives `""`; a single record gives its extracted text;
otherwise split all texts into words, and for each position up to the longest
length vote on the lower-cased word, skipping positions with no candidates,
then join with single spaces. -/
def create_word_level_consensus (transcriptions : List Transcription) : Txt :=
  match transcriptions with
  | [] => []
  | [t] => extract_text t
  | t1 :: t2 :: rest =>
    let all_words := (t1 :: t2 :: rest).map (fun t => pySplit (extract_text t))
    if all_words = [] then []
    else
      let max_length := (all_words.map List.length).foldl Nat.max 0
      List.intercalate [' ']
        ((List.range max_length).filterMap (fun pos =>
          mostCommon1 (all_words.filterMap
            (fun words => (words.get? pos).map pyLower))))

/-- Modelled from the spec's wording of the N ≥ 2 consensus rule: split every
record's text on whitespace, for each position collect the lower-cased token
from every record long enough, select by plurality with first-seen
tie-breaking, and join the selected tokens with single spaces.  (Unlike the
code path, no preliminary `strip` of the text is mentioned.) -/
def spec_word_position_consensus (transcriptions : List Transcription) : Txt :=
  let toks := transcriptions.map (fun t => pySplit (t.text.getD []))
  let max_length := (toks.map List.length).foldl Nat.max 0
  List.intercalate [' ']
    ((List.range max_length).filterMap (fun pos =>
      mostCommon1 (toks.filterMap (fun words => (words.get? pos).map pyLower))))

/-! ## Splitting is insensitive to stripping -/

theorem pySplitAux_allWS (s : Txt) :
    (∀ c ∈ s, c.isWhitespace = true) → ∀ cur, pySplitAux s cur = pySplitAux [] cur := by
  induction s with
  | nil => intro _ cur; rfl
  | cons c t ih =>
    intro h cur
    have hc : c.isWhitespace = true := h c (by simp)
    have ht : ∀ x ∈ t, x.isWhitespace = true := fun x hx => h x (by simp [hx])
    have htail : pySplitAux t [] = [] := by
      have := ih ht []
      simpa [pySplitAux] using this
    simp [pySplitAux, hc, htail]

theorem dropTrailingWS_eq_nil (s : Txt) :
    dropTrailingWS s = [] → ∀ c ∈ s, c.isWhitespace = true := by
  induction s with
  | nil => simp
  | cons c t ih =>
    intro h x hx
    cases hdt : dropTrailingWS t with
    | nil =>
      rw [dropTrailingWS, hdt] at h
      by_cases hc : c.isWhitespace = true
      · rcases List.mem_cons.mp hx with rfl | hxt
        · exact hc
        · exact ih hdt x hxt
      · simp [hc] at h
    | cons r rs => rw [dropTrailingWS, hdt] at h; simp at h

theorem pySplitAux_dropTrailing (s : Txt) :
    ∀ cur, pySplitAux (dropTrailingWS s) cur = pySplitAux s cur := by
  induction s with
  | nil => intro cur; rfl
  | cons c t ih =>
    intro cur
    cases hdt : dropTrailingWS t with
    | nil =>
      have hws : ∀ x ∈ t, x.isWhitespace = true := dropTrailingWS_eq_nil t hdt
      have htail : ∀ cur', pySplitAux t cur' = pySplitAux [] cur' :=
        pySplitAux_allWS t hws
      rw [dropTrailingWS, hdt]
      by_cases hc : c.isWhitespace = true
      · simp only [hc, if_true]
        rw [show pySplitAux (c :: t) cur
              = if cur = [] then pySplitAux t [] else cur.reverse :: pySplitAux t [] by
            simp [pySplitAux, hc]]
        rw [htail []]
        by_cases hcur : cur = [] <;> simp [pySplitAux, hcur]
      · have hc' : c.isWhitespace = false := by
          cases hcb : c.isWhitespace
          · rfl
          · exact absurd hcb hc
        rw [show (if c.isWhitespace = true then ([] : Txt) else [c])
              = [c] by simp [hc']]
        rw [show pySplitAux [c] cur = pySplitAux [] (c :: cur) by
            simp [pySplitAux, hc']]
        rw [show pySplitAux (c :: t) cur = pySplitAux t (c :: cur) by
            simp [pySplitAux, hc']]
        rw [htail (c :: cur)]
    | cons r rs =>
      rw [dropTrailingWS, hdt]
      by_cases hc : c.isWhitespace = true
      · rw [show pySplitAux (c :: r :: rs) cur
              = if cur = [] then pySplitAux (r :: rs) []
                else cur.reverse :: pySplitAux (r :: rs) [] by simp [pySplitAux, hc]]
        rw [show pySplitAux (c :: t) cur
              = if cur = [] then pySplitAux t [] else cur.reverse :: pySplitAux t [] by
            simp [pySplitAux, hc]]
        have := ih []
        rw [hdt] at this
        rw [this]
      · have hc' : c.isWhitespace = false := by
          cases hcb : c.isWhitespace
          · rfl
          · exact absurd hcb hc
        rw [show pySplitAux (c :: r :: rs) cur = pySplitAux (r :: rs) (c :: cur) by
            simp [pySplitAux, hc']]
        rw [show pySplitAux (c :: t) cur = pySplitAux t (c :: cur) by
            simp [pySplitAux, hc']]
        have := ih (c :: cur)
        rw [hdt] at this
        rw [this]

theorem pySplitAux_dropLeading (s : Txt) :
    pySplitAux (s.dropWhile Char.isWhitespace) [] = pySplitAux s [] := by
  induction s with
  | nil => rfl
  | cons c t ih =>
    by_cases hc : c.isWhitespace = true
    · rw [List.dropWhile_cons]
      simp only [hc, if_true]
      rw [ih]
      simp [pySplitAux, hc]
    · have hc' : c.isWhitespace = false := by
        cases hcb : c.isWhitespace
        · rfl
        · exact absurd hcb hc
      rw [List.dropWhile_cons]
      simp [hc']

/-- Splitting on whitespace ignores leading/trailing whitespace, so the
`strip` in `extract_text` does not change the token sequence. -/
theorem pySplit_pyStrip (s : Txt) : pySplit (pyStrip s) = pySplit s := by
  unfold pySplit pyStrip
  rw [pySplitAux_dropTrailing, pySplitAux_dropLeading]

/-! ## Claim C1 -/

/-- The three-record example from the spec's consensus-voting test. -/
def voting_example_records : List Transcription :=
  [⟨some ("the cat sat").data, none⟩,
   ⟨some ("the cat sad").data, none⟩,
   ⟨some ("the cat sat").data, none⟩]

/-- Claim C1: for every list of at least two transcript records, the code's
word-level consensus equals the spec's word-position plurality vote (split on
whitespace, lower-case per-position candidates from every record long enough,
plurality with first-seen tie-breaking, join with single spaces); and on the
three records "the cat sat" / "the cat sad" / "the cat sat" the consensus
text is "the cat sat". -/
theorem consensus_voting_matches_spec :
    (∀ ts : List Transcription, 2 ≤ ts.length →
      create_word_level_consensus ts = spec_word_position_consensus ts)
    ∧ create_word_level_consensus voting_example_records = ("the cat sat").data := by
  constructor
  · intro ts h
    match ts with
    | [] => simp at h
    | [t] => simp at h
    | t1 :: t2 :: rest =>
      have hfun : (fun t : Transcription => pySplit (extract_text t))
          = fun t : Transcription => pySplit (t.text.getD []) :=
        funext fun t => pySplit_pyStrip _
      simp only [create_word_level_consensus, spec_word_position_consensus, hfun]
      simp
  · decide

/-- Witness for C1: the refinement applied to the concrete three-record
example, its length hypothesis discharged by computation. -/
theorem consensus_voting_matches_spec_witness :
    create_word_level_consensus voting_example_records
      = spec_word_position_consensus voting_example_records :=
  consensus_voting_matches_spec.1 voting_example_records (by decide)

/-! ## Consensus record (`consensus.create_consensus`) -/

/-- Python `os.path.basename` (POSIX): the part after the last `/`. -/
def basename (p : Txt) : Txt :=
  p.foldl (fun acc c => if c = '/' then [] else acc ++ [c]) []

/-- The stem returned by `os.path.splitext(s)[0]`: everything before the last
dot, where leading dots do not count as extension separators. -/
def split_ext_base (s : Txt) : Txt :=
  let dots := s.takeWhile (fun c => c = '.')
  let rest := s.drop dots.length
  if rest.any (fun c => c = '.') then
    dots ++ ((rest.reverse.dropWhile (fun c => c ≠ '.')).drop 1).reverse
  else s

/-- The single synthetic segment written into a consensus file
(`{"start": 0.0, "end": 0.0, "text": ...}`; the `end` key is called `stop`
here because `end` is reserved in Lean). -/
structure ConsensusSegment where
  start : Int
  stop : Int
  text : Txt
deriving DecidableEq

/-- The `consensus_info` block of a consensus file. -/
structure ConsensusInfo where
  source_count : Nat
  source_files : List Txt
  method : Txt
deriving DecidableEq

/-- The consensus JSON document produced by `create_consensus`. -/
structure ConsensusResult where
  text : Txt
  language : Txt
  segments : List ConsensusSegment
  consensus_info : ConsensusInfo
deriving DecidableEq

/-- `consensus.find_best_transcription`: the record with the highest mean
pairwise similarity, first such index on ties (`list.index(max(...))`).
The similarity measure (`difflib.SequenceMatcher(...).ratio()` over
lower-cased texts) is an opaque numeric function and is passed in as `sim`.
Returns `none` only for an empty input, where the Python would raise. -/
def find_best_transcription (sim : Txt → Txt → ℚ)
    (transcriptions : List Transcription) : Option Transcription :=
  match transcriptions with
  | [] => none
  | [t] => some t
  | ts =>
    let texts := ts.map extract_text
    let similarity_scores := (List.range ts.length).map (fun i =>
      let similarities := (List.range ts.length).filterMap (fun j =>
        if i ≠ j then some (sim (texts.getD i []) (texts.getD j [])) else none)
      if similarities = [] then 0 else similarities.sum / (similarities.length : ℚ))
    let mx := similarity_scores.foldl max (similarity_scores.headD 0)
    let best_index := similarity_scores.findIdx (fun x => decide (x = mx))
    ts.get? best_index

/-- The pure core of `consensus.create_consensus`, after the transcript files
have been loaded: `none` models the "No valid transcriptions found" early
return (nothing written); otherwise the consensus document that is serialized.
`source_files` are the input file paths (`Path(f).name` is applied for
`consensus_info.source_files`). -/
def create_consensus_result (sim : Txt → Txt → ℚ)
    (transcriptions : List Transcription) (transcript_files : List Txt) :
    Option ConsensusResult :=
  match transcriptions with
  | [] => none
  | t :: rest =>
    let consensus_text :=
      if rest = [] then extract_text t
      else create_word_level_consensus (t :: rest)
    let best_transcription :=
      if rest = [] then t
      else (find_best_transcription sim (t :: rest)).getD t
    some
      { text := consensus_text
      , language := best_transcription.language.getD (("auto").data)
      , segments := [⟨0, 0, consensus_text⟩]
      , consensus_info :=
          { source_count := (t :: rest).length
          , source_files := transcript_files.map basename
          , method := if (t :: rest).length > 1
              then ("word_level_voting").data else ("single_source").data } }

/-! ## Claim C2 -/

/-- A similarity function standing in for `difflib` in closed computations;
never consulted on the single-record path. -/
def sim0 : Txt → Txt → ℚ := fun _ _ => 0

/-- Counterexample to C2 as stated: on the singleton record whose text is
`" hello"` (leading space), the consensus text is the stripped `"hello"`,
not the record's text verbatim. -/
theorem single_source_not_verbatim_counterexample :
    (create_consensus_result sim0 [⟨some (" hello").data, none⟩]
        [("a.json").data]).map ConsensusResult.text
      = some ("hello").data
    ∧ ("hello").data ≠ (" hello").data := by
  constructor
  · decide
  · decide

/-- Claim C2 (amended): for every singleton input list the consensus text
equals the record's text with leading/trailing whitespace stripped — hence
verbatim whenever the text has no surrounding whitespace — with method
`"single_source"` and `source_count = 1`, no voting performed; in particular
`build([{text:"hello world"}])` yields exactly `"hello world"`. -/
theorem single_source_strips_text :
    (∀ (sim : Txt → Txt → ℚ) (t : Transcription) (files : List Txt),
      (create_consensus_result sim [t] files).map
          (fun r => (r.text, r.consensus_info.method, r.consensus_info.source_count))
        = some (pyStrip (t.text.getD []), ("single_source").data, 1))
    ∧ (∀ (sim : Txt → Txt → ℚ) (t : Transcription) (files : List Txt) (s : Txt),
      t.text = some s → pyStrip s = s →
      (create_consensus_result sim [t] files).map ConsensusResult.text = some s)
    ∧ (create_consensus_result sim0 [⟨some ("hello world").data, none⟩]
        []).map ConsensusResult.text = some ("hello world").data := by
  refine ⟨?_, ?_, by decide⟩
  · intro sim t files
    simp [create_consensus_result, extract_text]
  · intro sim t files s hs hstrip
    simp [create_consensus_result, extract_text, hs, hstrip]

/-- Witness for C2: the amended claim applied to the record
`{text: "hello world"}`, whose text is already stripped. -/
theorem single_source_strips_text_witness :
    (create_consensus_result sim0 [⟨some ("hello world").data, none⟩]
        [("x.json").data]).map ConsensusResult.text
      = some ("hello world").data :=
  single_source_strips_text.2.1 sim0 ⟨some ("hello world").data, none⟩
    [("x.json").data] (("hello world").data) rfl (by decide)

/-! ## Metadata dictionaries and the merge in `processor._prepare_audio` -/

/-- A metadata value: a Python string or `None`. -/
abbrev MVal := Option Txt

/-- A Python dict with string keys, in insertion order. -/
abbrev Dict := List (Txt × MVal)

/-- First-match association-list lookup (Python `d[k]` / `k in d`). -/
def alookup {α : Type} : List (Txt × α) → Txt → Option α
  | [], _ => none
  | kv :: rest, k => if kv.1 = k then some kv.2 else alookup rest k

/-- Python `d.get(k)`: `None` when the key is absent. -/
def dictGet (d : Dict) (k : Txt) : MVal := (alookup d k).getD none

/-- Python `d[k] = v`: replace the first binding in place, else append
(dict keys keep their original position on update). -/
def dictSet {α : Type} : List (Txt × α) → Txt → α → List (Txt × α)
  | [], k, v => [(k, v)]
  | kv :: rest, k, v => if kv.1 = k then (k, v) :: rest else kv :: dictSet rest k v

/-- Python truthiness of a metadata value: `None` and `''` are falsy. -/
def truthy : MVal → Bool
  | none => false
  | some s => !s.isEmpty

/-- The merge loop of `processor._prepare_audio` (lines 77-79):
`for key, value in dl_metadata.items(): if key not in metadata or not
metadata.get(key): metadata[key] = value`. -/
def merge_metadata : Dict → Dict → Dict
  | metadata, [] => metadata
  | metadata, kv :: rest =>
    merge_metadata
      (if (alookup metadata kv.1).isNone || !truthy (dictGet metadata kv.1)
        then dictSet metadata kv.1 kv.2 else metadata)
      rest

theorem alookup_dictSet_self {α : Type} (d : List (Txt × α)) (k : Txt) (v : α) :
    alookup (dictSet d k v) k = some v := by
  induction d with
  | nil => simp [dictSet, alookup]
  | cons kv rest ih =>
    by_cases h : kv.1 = k
    · simp [dictSet, alookup, h]
    · simp [dictSet, alookup, h, ih]

theorem alookup_dictSet_other {α : Type} (d : List (Txt × α)) (k k' : Txt) (v : α)
    (h : k' ≠ k) : alookup (dictSet d k' v) k = alookup d k := by
  induction d with
  | nil => simp [dictSet, alookup, h]
  | cons kv rest ih =>
    by_cases hk : kv.1 = k'
    · simp [dictSet, alookup, hk, h]
    · rw [show dictSet (kv :: rest) k' v = kv :: dictSet rest k' v by
        simp [dictSet, hk]]
      rw [alookup, alookup]
      by_cases hk2 : kv.1 = k
      · rw [if_pos hk2, if_pos hk2]
      · rw [if_neg hk2, if_neg hk2, ih]

theorem alookup_none_of_not_mem {α : Type} (d : List (Txt × α)) (k : Txt)
    (h : k ∉ d.map Prod.fst) : alookup d k = none := by
  induction d with
  | nil => rfl
  | cons kv rest ih =>
    have h1 : ¬kv.1 = k := by
      intro he
      exact h (by rw [List.map_cons, he]; exact List.mem_cons_self _ _)
    have h2 : k ∉ rest.map Prod.fst := by
      intro hm
      exact h (by rw [List.map_cons]; exact List.mem_cons_of_mem _ hm)
    simp only [alookup]
    rw [if_neg h1]
    exact ih h2

theorem merge_metadata_truthy (dl : Dict) :
    ∀ metadata k, truthy (dictGet metadata k) = true →
      dictGet (merge_metadata metadata dl) k = dictGet metadata k := by
  induction dl with
  | nil => intro metadata k _; rfl
  | cons kv rest ih =>
    intro metadata k hk
    by_cases hkey : kv.1 = k
    · subst hkey
      have hlookup : (alookup metadata kv.1).isNone = false := by
        cases h : alookup metadata kv.1 with
        | none => rw [dictGet, h] at hk; simp [truthy] at hk
        | some v => rfl
      rw [merge_metadata, hlookup, hk]
      simp only [Bool.false_or, Bool.not_true]
      exact ih metadata kv.1 hk
    · have hne : kv.1 ≠ k := hkey
      rw [merge_metadata]
      by_cases hcond : ((alookup metadata kv.1).isNone
          || !truthy (dictGet metadata kv.1)) = true
      · rw [if_pos hcond]
        have hget : dictGet (dictSet metadata kv.1 kv.2) k = dictGet metadata k := by
          rw [dictGet, alookup_dictSet_other metadata k kv.1 kv.2 hne, dictGet]
        rw [ih (dictSet metadata kv.1 kv.2) k (by rw [hget]; exact hk), hget]
      · rw [if_neg hcond]
        exact ih metadata k hk

theorem merge_metadata_absent (dl : Dict) :
    ∀ metadata k, (alookup dl k).isNone →
      dictGet (merge_metadata metadata dl) k = dictGet metadata k := by
  induction dl with
  | nil => intro metadata k _; rfl
  | cons kv rest ih =>
    intro metadata k habs
    have hne : kv.1 ≠ k := by
      intro h
      rw [alookup, if_pos h] at habs
      simp at habs
    have hrest : (alookup rest k).isNone := by
      rwa [alookup, if_neg hne] at habs
    rw [merge_metadata]
    by_cases hcond : ((alookup metadata kv.1).isNone
        || !truthy (dictGet metadata kv.1)) = true
    · rw [if_pos hcond, ih _ k hrest, dictGet,
        alookup_dictSet_other metadata k kv.1 kv.2 hne, dictGet]
    · rw [if_neg hcond]
      exact ih metadata k hrest

/-! ## Claim C3 -/

/-- The override record of the spec's precedence example. -/
def override_example : Dict :=
  [(("title").data, some ("A").data), (("uploader").data, some [])]

/-- The acquired record of the spec's precedence example. -/
def acquired_example : Dict :=
  [(("title").data, some []), (("uploader").data, some ("B").data)]

/-- Claim C3: merging keeps the override's value for every field that is
present and non-empty in the override; every field the override left empty or
absent takes the acquired record's value (its first binding; dict keys are
unique); and the concrete example merges
`{title:"A", uploader:""}` with `{title:"", uploader:"B"}` to
`{title:"A", uploader:"B"}`. -/
theorem metadata_merge_precedence :
    (∀ (metadata dl : Dict) (k : Txt), truthy (dictGet metadata k) = true →
      dictGet (merge_metadata metadata dl) k = dictGet metadata k)
    ∧ (∀ (metadata dl : Dict) (k : Txt), (dl.map Prod.fst).Nodup →
      truthy (dictGet metadata k) = false → (alookup dl k).isSome →
      dictGet (merge_metadata metadata dl) k = dictGet dl k)
    ∧ merge_metadata override_example acquired_example
      = [(("title").data, some ("A").data), (("uploader").data, some ("B").data)] := by
  refine ⟨fun metadata dl k h => merge_metadata_truthy dl metadata k h, ?_, by decide⟩
  intro metadata dl
  induction dl generalizing metadata with
  | nil => intro k _ _ habs; simp [alookup] at habs
  | cons kv rest ih =>
    intro k hnodup hfalsy hsome
    by_cases hkey : kv.1 = k
    · subst hkey
      have hcond : ((alookup metadata kv.1).isNone
          || !truthy (dictGet metadata kv.1)) = true := by
        rw [hfalsy]; simp
      rw [merge_metadata, if_pos hcond]
      have hpair : kv.1 ∉ rest.map Prod.fst ∧ (rest.map Prod.fst).Nodup := by
        rw [List.map_cons, List.nodup_cons] at hnodup
        exact hnodup
      have hnotin : (alookup rest kv.1).isNone := by
        rw [alookup_none_of_not_mem rest kv.1 hpair.1]
        rfl
      rw [merge_metadata_absent rest _ kv.1 hnotin]
      simp [dictGet, alookup_dictSet_self, alookup]
    · have hne : kv.1 ≠ k := hkey
      have hnodup' : (rest.map Prod.fst).Nodup := by
        rw [List.map_cons, List.nodup_cons] at hnodup
        exact hnodup.2
      have hsome' : (alookup rest k).isSome := by
        rwa [alookup, if_neg hne] at hsome
      rw [merge_metadata]
      have hdl : dictGet (kv :: rest) k = dictGet rest k := by
        rw [dictGet, alookup, if_neg hne, dictGet]
      by_cases hcond : ((alookup metadata kv.1).isNone
          || !truthy (dictGet metadata kv.1)) = true
      · rw [if_pos hcond, hdl]
        have hfalsy' : truthy (dictGet (dictSet metadata kv.1 kv.2) k) = false := by
          rw [dictGet, alookup_dictSet_other metadata k kv.1 kv.2 hne, ← dictGet, hfalsy]
        exact ih (dictSet metadata kv.1 kv.2) k hnodup' hfalsy' hsome'
      · rw [if_neg hcond, hdl]
        exact ih metadata k hnodup' hfalsy hsome'

/-- Witness for C3: both merge directions at the spec's concrete example —
the override's non-empty `title` survives, the empty `uploader` is filled
from the acquired record. -/
theorem metadata_merge_precedence_witness :
    dictGet (merge_metadata override_example acquired_example) (("title").data)
      = dictGet override_example (("title").data)
    ∧ dictGet (merge_metadata override_example acquired_example) (("uploader").data)
      = dictGet acquired_example (("uploader").data) :=
  ⟨metadata_merge_precedence.1 override_example acquired_example
      (("title").data) (by decide),
   metadata_merge_precedence.2.1 override_example acquired_example
      (("uploader").data) (by decide) (by decide) (by decide)⟩

/-! ## Job orchestrator model (`processor.TranscriptionProcessor`) -/

/-- The filesystem, as the list of file paths that exist. -/
abbrev FS := List Txt

/-- The transcript path computed by `_transcribe_with_model` and `transcribe`:
`os.path.join(output_dir, f'{base_name}-{model}.json')` with
`base_name = os.path.splitext(os.path.basename(audio_path))[0]`. -/
def expected_transcript_path (output_dir audio_path model : Txt) : Txt :=
  output_dir ++ '/' ::
    (split_ext_base (basename audio_path) ++ '-' :: model ++ (".json").data)

/-- `processor._transcribe_with_model` over the filesystem: if the transcript
file already exists, return its path without invoking the backend; otherwise
invoke the backend (counted), which on success writes the transcript JSON at
the computed path (then metadata is injected in place) and on failure raises
(`none`), leaving the filesystem unchanged.  Result: (transcript path or
failure, new filesystem, number of backend invocations). -/
def transcribe_with_model (backendOk : Txt → Bool)
    (model audio_path output_dir : Txt) (fs : FS) : Option Txt × FS × Nat :=
  let transcript_file := expected_transcript_path output_dir audio_path model
  if transcript_file ∈ fs then
    (some transcript_file, fs, 0)
  else if backendOk model then
    (some transcript_file, transcript_file :: fs, 1)
  else
    (none, fs, 1)

/-- The per-model loop of `processor.process` (lines 54-65): each model is
tried independently; an exception from `_transcribe_with_model` is caught and
the loop continues with the next model.  Returns (transcript file list in
model order, final filesystem, total backend invocations). -/
def process_models (backendOk : Txt → Bool) (models : List Txt)
    (audio_path output_dir : Txt) (fs : FS) : List Txt × FS × Nat :=
  match models with
  | [] => ([], fs, 0)
  | model :: rest =>
    match transcribe_with_model backendOk model audio_path output_dir fs with
    | (some f, fs', k) =>
      let r := process_models backendOk rest audio_path output_dir fs'
      (f :: r.1, r.2.1, k + r.2.2)
    | (none, fs', k) =>
      let r := process_models backendOk rest audio_path output_dir fs'
      (r.1, r.2.1, k + r.2.2)

/-- The return of `processor.process`: the model loop catches every per-model
exception, so the method always returns the collected `transcript_files`
list normally — the `Except` result type records that no exception can
escape the loop. -/
def process_run (backendOk : Txt → Bool) (models : List Txt)
    (audio_path output_dir : Txt) (fs : FS) : Except Txt (List Txt) :=
  Except.ok (process_models backendOk models audio_path output_dir fs).1

/-- `workflow.TranscriptionWorkflow._run_transcriptions`: runs every model
(collecting the transcript paths of the successful ones) and raises
`Exception("All transcriptions failed!")` when no transcript was produced. -/
def run_transcriptions (backendOk : Txt → Bool) (models : List Txt)
    (audio_file output_dir : Txt) : Except Txt (List Txt) :=
  let transcript_files := models.filterMap (fun m =>
    if backendOk m then some (expected_transcript_path output_dir audio_file m)
    else none)
  if transcript_files.isEmpty then
    Except.error (("All transcriptions failed!").data)
  else
    Except.ok transcript_files

/-! ## Claim C4 -/

/-- Counterexample to C4 as stated: with a backend that fails for every
model, `TranscriptionProcessor.process` returns normally with the empty list
— it does not raise any all-backends-failed error (no such exception class
exists in the code base). -/
theorem process_returns_ok_when_all_models_fail :
    process_run (fun _ => false) [("whisper").data] (("a.wav").data)
        (("out").data) [] = Except.ok []
    ∧ (process_run (fun _ => false) [("whisper").data] (("a.wav").data)
        (("out").data) []).isOk = true := by
  constructor
  · rfl
  · rfl

/-- Claim C4 (amended): when every requested model's backend invocation fails
(and no transcript file pre-exists), `TranscriptionProcessor.process` returns
normally with an empty result list after invoking each backend once; only the
separate `TranscriptionWorkflow._run_transcriptions` raises, and what it
raises is a generic `Exception("All transcriptions failed!")`. -/
theorem all_models_failed_behavior :
    (∀ (backendOk : Txt → Bool) (models : List Txt) (audio_path output_dir : Txt)
      (fs : FS),
      (∀ m ∈ models, backendOk m = false) →
      (∀ m ∈ models, expected_transcript_path output_dir audio_path m ∉ fs) →
      process_run backendOk models audio_path output_dir fs = Except.ok []
      ∧ (process_models backendOk models audio_path output_dir fs).2.2
          = models.length)
    ∧ (∀ (backendOk : Txt → Bool) (models : List Txt) (audio_file output_dir : Txt),
      (∀ m ∈ models, backendOk m = false) →
      run_transcriptions backendOk models audio_file output_dir
        = Except.error (("All transcriptions failed!").data)) := by
  constructor
  · intro backendOk models audio_path output_dir fs hfail habsent
    have key : ∀ ms : List Txt, (∀ m ∈ ms, backendOk m = false) →
        (∀ m ∈ ms, expected_transcript_path output_dir audio_path m ∉ fs) →
        process_models backendOk ms audio_path output_dir fs = ([], fs, ms.length) := by
      intro ms
      induction ms with
      | nil => intro _ _; rfl
      | cons m rest ih =>
        intro hf ha
        have hm : backendOk m = false := hf m (List.mem_cons_self _ _)
        have hnotin : expected_transcript_path output_dir audio_path m ∉ fs :=
          ha m (List.mem_cons_self _ _)
        have htwm : transcribe_with_model backendOk m audio_path output_dir fs
            = (none, fs, 1) := by
          simp [transcribe_with_model, hnotin, hm]
        have hrest := ih (fun x hx => hf x (List.mem_cons_of_mem _ hx))
          (fun x hx => ha x (List.mem_cons_of_mem _ hx))
        rw [process_models, htwm]
        simp [hrest, Nat.add_comm]
    have h := key models hfail habsent
    constructor
    · rw [process_run, h]
    · rw [h]
  · intro backendOk models audio_file output_dir hfail
    have hnil : models.filterMap (fun m =>
        if backendOk m then some (expected_transcript_path output_dir audio_file m)
        else none) = [] := by
      rw [List.filterMap_eq_nil_iff]
      intro m hm
      rw [hfail m hm]
      rfl
    rw [run_transcriptions, hnil]
    rfl

/-- Witness for C4 (amended): both halves at a concrete all-failing backend
with one requested model. -/
theorem all_models_failed_behavior_witness :
    (process_run (fun _ => false) [("whisper").data] (("a.wav").data)
        (("out").data) [] = Except.ok []
      ∧ (process_models (fun _ => false) [("whisper").data] (("a.wav").data)
          (("out").data) []).2.2 = 1)
    ∧ run_transcriptions (fun _ => false) [("whisper").data] (("a.wav").data)
        (("out").data) = Except.error (("All transcriptions failed!").data) :=
  ⟨all_models_failed_behavior.1 (fun _ => false) [("whisper").data]
      (("a.wav").data) (("out").data) []
      (by intro m _; rfl) (by intro m _; exact List.not_mem_nil _),
   all_models_failed_behavior.2 (fun _ => false) [("whisper").data]
      (("a.wav").data) (("out").data) (by intro m _; rfl)⟩

/-! ## Claim C5 -/

theorem process_models_all_exist (backendOk : Txt → Bool)
    (audio_path output_dir : Txt) :
    ∀ (models : List Txt) (fs : FS),
      (∀ m ∈ models, expected_transcript_path output_dir audio_path m ∈ fs) →
      process_models backendOk models audio_path output_dir fs
        = (models.map (expected_transcript_path output_dir audio_path), fs, 0) := by
  intro models
  induction models with
  | nil => intro fs _; rfl
  | cons m rest ih =>
    intro fs hmem
    have hm : expected_transcript_path output_dir audio_path m ∈ fs :=
      hmem m (List.mem_cons_self _ _)
    have htwm : transcribe_with_model backendOk m audio_path output_dir fs
        = (some (expected_transcript_path output_dir audio_path m), fs, 0) := by
      simp [transcribe_with_model, hm]
    have hrest := ih fs (fun x hx => hmem x (List.mem_cons_of_mem _ hx))
    rw [process_models, htwm]
    simp [hrest]

theorem process_models_all_ok (backendOk : Txt → Bool)
    (audio_path output_dir : Txt) :
    ∀ (models : List Txt) (fs : FS),
      (∀ m ∈ models, backendOk m = true) →
      (process_models backendOk models audio_path output_dir fs).1
          = models.map (expected_transcript_path output_dir audio_path)
      ∧ (∀ x ∈ fs, x ∈ (process_models backendOk models audio_path output_dir fs).2.1)
      ∧ (∀ m ∈ models, expected_transcript_path output_dir audio_path m
          ∈ (process_models backendOk models audio_path output_dir fs).2.1) := by
  intro models
  induction models with
  | nil =>
    intro fs _
    exact ⟨rfl, fun x hx => hx, fun m hm => absurd hm (List.not_mem_nil _)⟩
  | cons m rest ih =>
    intro fs hok
    have hm : backendOk m = true := hok m (List.mem_cons_self _ _)
    by_cases hex : expected_transcript_path output_dir audio_path m ∈ fs
    · have htwm : transcribe_with_model backendOk m audio_path output_dir fs
          = (some (expected_transcript_path output_dir audio_path m), fs, 0) := by
        simp [transcribe_with_model, hex]
      have hrest := ih fs (fun x hx => hok x (List.mem_cons_of_mem _ hx))
      rw [process_models, htwm]
      refine ⟨by simp [hrest.1], fun x hx => hrest.2.1 x hx, ?_⟩
      intro m' hm'
      rcases List.mem_cons.mp hm' with rfl | hm't
      · exact hrest.2.1 _ hex
      · exact hrest.2.2 m' hm't
    · have htwm : transcribe_with_model backendOk m audio_path output_dir fs
          = (some (expected_transcript_path output_dir audio_path m),
             expected_transcript_path output_dir audio_path m :: fs, 1) := by
        simp [transcribe_with_model, hex, hm]
      have hrest := ih (expected_transcript_path output_dir audio_path m :: fs)
        (fun x hx => hok x (List.mem_cons_of_mem _ hx))
      rw [process_models, htwm]
      refine ⟨by simp [hrest.1], ?_, ?_⟩
      · intro x hx
        exact hrest.2.1 x (List.mem_cons_of_mem _ hx)
      · intro m' hm'
        rcases List.mem_cons.mp hm' with rfl | hm't
        · exact hrest.2.1 _ (List.mem_cons_self _ _)
        · exact hrest.2.2 m' hm't

/-- Claim C5: (1) when a model's expected transcript file
(`{audio_base}-{model}.json` in the output directory) already exists, the
orchestrator records that path as the result with zero backend invocations;
(2) hence — provided every requested model's backend succeeds when invoked —
running the orchestrator's model loop a second time over the filesystem the
first run left behind returns the same file list, changes nothing on disk,
and performs zero backend invocations. -/
theorem transcription_resumability :
    (∀ (backendOk : Txt → Bool) (model audio_path output_dir : Txt) (fs : FS),
      expected_transcript_path output_dir audio_path model ∈ fs →
      transcribe_with_model backendOk model audio_path output_dir fs
        = (some (expected_transcript_path output_dir audio_path model), fs, 0))
    ∧ (∀ (backendOk : Txt → Bool) (models : List Txt)
        (audio_path output_dir : Txt) (fs : FS),
      (∀ m ∈ models, backendOk m = true) →
      (process_models backendOk models audio_path output_dir
          (process_models backendOk models audio_path output_dir fs).2.1).1
        = (process_models backendOk models audio_path output_dir fs).1
      ∧ (process_models backendOk models audio_path output_dir
          (process_models backendOk models audio_path output_dir fs).2.1).2.1
        = (process_models backendOk models audio_path output_dir fs).2.1
      ∧ (process_models backendOk models audio_path output_dir
          (process_models backendOk models audio_path output_dir fs).2.1).2.2 = 0) := by
  constructor
  · intro backendOk model audio_path output_dir fs hmem
    simp [transcribe_with_model, hmem]
  · intro backendOk models audio_path output_dir fs hok
    have h1 := process_models_all_ok backendOk audio_path output_dir models fs hok
    have h2 := process_models_all_exist backendOk audio_path output_dir models
      (process_models backendOk models audio_path output_dir fs).2.1 h1.2.2
    rw [h2, h1.1]
    exact ⟨rfl, rfl, rfl⟩

/-- Witness for C5: a concrete two-model job — the second run returns the
first run's file list, leaves the filesystem unchanged and makes zero backend
invocations; the existence-skip applied to a concrete pre-existing file. -/
theorem transcription_resumability_witness :
    transcribe_with_model (fun _ => false) (("whisper").data) (("a.wav").data)
        (("out").data)
        [expected_transcript_path (("out").data) (("a.wav").data) (("whisper").data)]
      = (some (expected_transcript_path (("out").data) (("a.wav").data)
          (("whisper").data)),
         [expected_transcript_path (("out").data) (("a.wav").data)
           (("whisper").data)], 0)
    ∧ (process_models (fun _ => true) [("whisper").data, ("parakeet").data]
        (("a.wav").data) (("out").data)
        (process_models (fun _ => true) [("whisper").data, ("parakeet").data]
          (("a.wav").data) (("out").data) []).2.1).2.2 = 0 :=
  ⟨transcription_resumability.1 (fun _ => false) (("whisper").data)
      (("a.wav").data) (("out").data) _ (List.mem_cons_self _ _),
   (transcription_resumability.2 (fun _ => true)
      [("whisper").data, ("parakeet").data] (("a.wav").data) (("out").data) []
      (by intro m _; rfl)).2.2⟩

/-! ## Batch controller model (`playlist.PlaylistProcessor`) -/

/-- A playlist entry as yielded by `download.iter_playlist_entries`:
`upload_date` is always a (possibly empty) string after reformatting, the
other fields may be `None`. -/
structure PlaylistEntry where
  id : Option Txt
  title : Option Txt
  uploader : Option Txt
  upload_date : Txt
  description : Option Txt
  url : Option Txt
deriving DecidableEq

/-- The per-entry metadata override built in
`playlist._process_playlist_entries` (lines 66-72). -/
def entry_metadata (e : PlaylistEntry) : Dict :=
  [(("id").data, e.id),
   (("title").data, e.title),
   (("description").data, some (e.description.getD [])),
   (("uploader").data, some (e.uploader.getD [])),
   (("upload_date").data, some e.upload_date)]

/-- The entry loop of `playlist._process_playlist_entries` from 1-based
index `idx`: entries below `start_index` are skipped, entries without a url
are skipped, and an exception raised by
`transcription_processor.process(url, metadata)` is caught and the loop
continues with the next entry. -/
def process_entries_from (proc : Txt → Dict → Except Txt (List Txt))
    (start_index : Nat) : Nat → List PlaylistEntry → List Txt
  | _, [] => []
  | idx, e :: rest =>
    let tail := process_entries_from proc start_index (idx + 1) rest
    if idx < start_index then tail
    else
      match e.url with
      | none => tail
      | some url =>
        match proc url (entry_metadata e) with
        | Except.ok transcripts => transcripts ++ tail
        | Except.error _ => tail

/-- `playlist._process_playlist_entries`: early empty return when
`start_index > len(entries)`, else the 1-based entry loop. -/
def process_playlist_entries (proc : Txt → Dict → Except Txt (List Txt))
    (entries : List PlaylistEntry) (start_index : Nat) : List Txt :=
  if entries.length < start_index then []
  else process_entries_from proc start_index 1 entries

/-- The spec-side characterization of one batch run: exactly the entries at
1-based position ≥ `start_index` that carry a url contribute, in original
order, each contributing its results (or nothing if it raises). -/
def spec_batch_results (proc : Txt → Dict → Except Txt (List Txt))
    (entries : List PlaylistEntry) (start_index : Nat) : List Txt :=
  ((entries.enumFrom 1).filter (fun ie => decide (start_index ≤ ie.1))).flatMap
    (fun ie =>
      match ie.2.url with
      | none => []
      | some url =>
        match proc url (entry_metadata ie.2) with
        | Except.ok transcripts => transcripts
        | Except.error _ => [])

theorem process_entries_from_spec (proc : Txt → Dict → Except Txt (List Txt))
    (start_index : Nat) :
    ∀ (entries : List PlaylistEntry) (idx : Nat),
      process_entries_from proc start_index idx entries
        = ((entries.enumFrom idx).filter
              (fun ie => decide (start_index ≤ ie.1))).flatMap
            (fun ie =>
              match ie.2.url with
              | none => []
              | some url =>
                match proc url (entry_metadata ie.2) with
                | Except.ok transcripts => transcripts
                | Except.error _ => []) := by
  intro entries
  induction entries with
  | nil => intro idx; rfl
  | cons e rest ih =>
    intro idx
    simp only [process_entries_from]
    rw [List.enumFrom_cons, List.filter_cons]
    by_cases hlt : idx < start_index
    · have hdec : ¬(decide (start_index ≤ (idx, e).1) = true) := by
        simp only [decide_eq_true_eq]
        omega
      rw [if_pos hlt, if_neg hdec]
      exact ih (idx + 1)
    · have hle : start_index ≤ idx := by omega
      have hdec : decide (start_index ≤ (idx, e).1) = true := by
        simp only [decide_eq_true_eq]
        exact hle
      rw [if_neg hlt, if_pos hdec, List.flatMap_cons, ih (idx + 1)]
      cases hu : e.url with
      | none => simp [hu]
      | some url =>
        cases hp : proc url (entry_metadata e) with
        | ok ts => simp [hu, hp]
        | error err => simp [hu, hp]

/-! ## Claim C6 -/

/-- A playlist entry that carries a title but no url (locator). -/
def entry_without_url : PlaylistEntry := ⟨none, some ("T").data, none, [], none, none⟩

/-- Counterexample to C6 as stated: a 1-entry batch with `start_index = 1`
whose entry has no url produces `[]` even though the orchestrator callback
would return a transcript for any entry it were given — so position ≥
`start_index` alone does not make an entry processed; entries without a url
are skipped. -/
theorem playlist_skips_entry_without_url :
    process_playlist_entries (fun _ _ => Except.ok [("t").data])
        [entry_without_url] 1 = []
    ∧ ([] : List Txt) ≠ [("t").data] := by
  constructor
  · rfl
  · decide

/-- Claim C6 (amended): for every batch, callback and start index, the batch
controller's result is exactly the concatenated results of the entries at
1-based positions ≥ `start_index` that carry a url, in original order —
entries below `start_index` (and url-less entries) contribute nothing and are
never handed to the orchestrator (the result is independent of the callback's
behavior on them, for every callback); and when `start_index` exceeds the
entry count the controller returns the empty list without touching any
entry. -/
theorem playlist_start_index_behavior :
    (∀ (proc : Txt → Dict → Except Txt (List Txt))
      (entries : List PlaylistEntry) (start_index : Nat),
      process_playlist_entries proc entries start_index
        = spec_batch_results proc entries start_index)
    ∧ (∀ (proc : Txt → Dict → Except Txt (List Txt))
      (entries : List PlaylistEntry) (start_index : Nat),
      entries.length < start_index →
      process_playlist_entries proc entries start_index = []) := by
  constructor
  · intro proc entries start_index
    rw [process_playlist_entries]
    by_cases hgt : entries.length < start_index
    · rw [if_pos hgt]
      rw [spec_batch_results]
      have hempty : (entries.enumFrom 1).filter
          (fun ie => decide (start_index ≤ ie.1)) = [] := by
        rw [List.filter_eq_nil_iff]
        intro ie hie
        obtain ⟨i, e⟩ := ie
        have hbound : i < 1 + entries.length := (List.mem_enumFrom hie).2.1
        simp only [decide_eq_true_eq]
        omega
      rw [hempty]
      rfl
    · rw [if_neg hgt]
      exact process_entries_from_spec proc start_index entries 1
  · intro proc entries start_index h
    rw [process_playlist_entries, if_pos h]

/-- Witness for C6: the early-return branch applied to a concrete 2-entry
batch with `start_index = 3`. -/
theorem playlist_start_index_behavior_witness :
    process_playlist_entries (fun _ _ => Except.ok [("t").data])
        [entry_without_url, entry_without_url] 3 = [] :=
  playlist_start_index_behavior.2 (fun _ _ => Except.ok [("t").data])
    [entry_without_url, entry_without_url] 3 (by decide)

theorem enumFrom_flatMap {α β : Type} (f : α → List β) :
    ∀ (l : List α) (idx : Nat),
      (l.enumFrom idx).flatMap (fun ie => f ie.2) = l.flatMap f := by
  intro l
  induction l with
  | nil => intro idx; rfl
  | cons a t ih =>
    intro idx
    rw [List.enumFrom_cons, List.flatMap_cons, List.flatMap_cons, ih]

/-! ## Claim C7 -/

/-- A playlist entry whose url (and id/title) is the given string. -/
def entry_with_url (u : Txt) : PlaylistEntry := ⟨some u, some u, none, [], none, some u⟩

/-- A processing callback that fails (raises) exactly on the url `"u2"` and
returns a one-element transcript list naming the url otherwise. -/
def failing_mid_proc : Txt → Dict → Except Txt (List Txt) := fun u _ =>
  if u = ("u2").data then Except.error (("AcquisitionError").data)
  else Except.ok [u]

/-- Claim C7: the batch call is a total function — every per-entry exception
is caught and contributes nothing, so for a full run the result is exactly
the concatenation of the successful entries' results, and in particular on a
3-entry batch whose middle entry raises, entries 1 and 3 still produce their
results and the call returns normally. -/
theorem playlist_failure_isolation :
    (∀ (proc : Txt → Dict → Except Txt (List Txt)) (entries : List PlaylistEntry),
      process_playlist_entries proc entries 1
        = entries.flatMap (fun e =>
            match e.url with
            | none => []
            | some url =>
              match proc url (entry_metadata e) with
              | Except.ok transcripts => transcripts
              | Except.error _ => []))
    ∧ process_playlist_entries failing_mid_proc
        [entry_with_url (("u1").data), entry_with_url (("u2").data),
         entry_with_url (("u3").data)] 1
      = [("u1").data, ("u3").data] := by
  constructor
  · intro proc entries
    rw [process_playlist_entries]
    by_cases hlen : entries.length < 1
    · have hnil : entries = [] := by
        cases entries with
        | nil => rfl
        | cons a l => simp at hlen
      subst hnil
      rfl
    · rw [if_neg hlen, process_entries_from_spec proc 1 entries 1]
      have hall : (entries.enumFrom 1).filter (fun ie => decide (1 ≤ ie.1))
          = entries.enumFrom 1 := by
        rw [List.filter_eq_self]
        intro ie hie
        obtain ⟨i, e⟩ := ie
        have h1 : 1 ≤ i := (List.mem_enumFrom hie).1
        simp only [decide_eq_true_eq]
        exact h1
      rw [hall]
      exact enumFrom_flatMap
        (fun e =>
          match e.url with
          | none => []
          | some url =>
            match proc url (entry_metadata e) with
            | Except.ok transcripts => transcripts
            | Except.error _ => [])
        entries 1
  · rfl

/-! ## Metadata injection (`processor._inject_metadata`) -/

/-- A JSON value as held in a loaded transcript document. -/
inductive JVal where
  | nullv : JVal
  | strv : Txt → JVal
  | numv : Int → JVal
  | arrv : List JVal → JVal

instance : Inhabited JVal := ⟨JVal.nullv⟩

/-- A JSON object in key order (Python dicts / `OrderedDict`). -/
abbrev JObj := List (Txt × JVal)

/-- Conversion of a Python metadata value (`str` or `None`, as returned by
`metadata.get(...)`) to the JSON value that is serialized. -/
def meta_val : MVal → JVal
  | none => JVal.nullv
  | some s => JVal.strv s

/-- The six metadata keys written first by `_inject_metadata`, in their
literal order. -/
def six_keys : List Txt :=
  [("title").data, ("description").data, ("uploader").data,
   ("upload_date").data, ("video_id").data, ("model").data]

/-- The `ordered` dict of `_inject_metadata` before the transcript fields are
appended: six metadata entries in fixed order (`video_id` is taken from the
metadata key `id`, `model` is the model identifier). -/
def ordered_metadata (metadata : Dict) (model : Txt) : JObj :=
  [(("title").data, meta_val (dictGet metadata (("title").data))),
   (("description").data, meta_val (dictGet metadata (("description").data))),
   (("uploader").data, meta_val (dictGet metadata (("uploader").data))),
   (("upload_date").data, meta_val (dictGet metadata (("upload_date").data))),
   (("video_id").data, meta_val (dictGet metadata (("id").data))),
   (("model").data, JVal.strv model)]

/-- The loop `for key, value in data.items(): if key not in ordered:
ordered[key] = value` — append each transcript field whose key is not
already present. -/
def add_remaining (od : JObj) : JObj → JObj
  | [] => od
  | kv :: rest =>
    if kv.1 ∈ od.map Prod.fst then add_remaining od rest
    else add_remaining (od ++ [kv]) rest

/-- `processor._inject_metadata` as a pure document transformation: the six
metadata entries first, then the transcript fields whose keys do not collide
with them. -/
def inject_metadata (data : JObj) (metadata : Dict) (model : Txt) : JObj :=
  add_remaining (ordered_metadata metadata model) data

theorem add_remaining_keys :
    ∀ (data : JObj) (od : JObj), (data.map Prod.fst).Nodup →
      (add_remaining od data).map Prod.fst
        = od.map Prod.fst ++ (data.map Prod.fst).filter
            (fun k => decide (k ∉ od.map Prod.fst)) := by
  intro data
  induction data with
  | nil => intro od _; simp [add_remaining]
  | cons kv rest ih =>
    intro od hnodup
    have hpair : kv.1 ∉ rest.map Prod.fst ∧ (rest.map Prod.fst).Nodup := by
      rw [List.map_cons, List.nodup_cons] at hnodup
      exact hnodup
    rw [List.map_cons, List.filter_cons]
    by_cases hmem : kv.1 ∈ od.map Prod.fst
    · rw [add_remaining, if_pos hmem, ih od hpair.2]
      have hdec : ¬(decide (kv.1 ∉ od.map Prod.fst) = true) := by
        simp only [decide_eq_true_eq]
        exact fun h => h hmem
      rw [if_neg hdec]
    · rw [add_remaining, if_neg hmem, ih (od ++ [kv]) hpair.2]
      have hdec : decide (kv.1 ∉ od.map Prod.fst) = true := by
        simp only [decide_eq_true_eq]
        exact hmem
      rw [if_pos hdec]
      have hfilter : (rest.map Prod.fst).filter
            (fun k => decide (k ∉ (od ++ [kv]).map Prod.fst))
          = (rest.map Prod.fst).filter (fun k => decide (k ∉ od.map Prod.fst)) := by
        apply List.filter_congr
        intro k hk
        have hkne : k ≠ kv.1 := fun h => hpair.1 (h ▸ hk)
        simp only [List.map_append, List.mem_append, decide_eq_decide]
        simp [hkne]
      rw [hfilter]
      simp

theorem add_remaining_prefix :
    ∀ (data : JObj) (od : JObj), ∃ tail, add_remaining od data = od ++ tail := by
  intro data
  induction data with
  | nil => intro od; exact ⟨[], by simp [add_remaining]⟩
  | cons kv rest ih =>
    intro od
    rw [add_remaining]
    by_cases hmem : kv.1 ∈ od.map Prod.fst
    · rw [if_pos hmem]
      exact ih od
    · rw [if_neg hmem]
      obtain ⟨tail, htail⟩ := ih (od ++ [kv])
      exact ⟨kv :: tail, by rw [htail]; simp⟩

theorem alookup_append_left {α : Type} (d d' : List (Txt × α)) (k : Txt) (v : α)
    (h : alookup d k = some v) : alookup (d ++ d') k = some v := by
  induction d with
  | nil => simp [alookup] at h
  | cons kv rest ih =>
    rw [alookup] at h
    rw [List.cons_append, alookup]
    by_cases hk : kv.1 = k
    · rwa [if_pos hk] at h ⊢
    · rw [if_neg hk] at h ⊢
      exact ih h

/-! ## Claim C8 -/

/-- Claim C8: for every loaded transcript document (JSON objects have
pairwise-distinct keys), every metadata record and every model id, the
enriched document's key sequence is literally
`title, description, uploader, upload_date, video_id, model` followed by the
transcript keys that do not collide with those six, in their original order —
in particular `title` precedes `model`; and at each of the six keys the
stored value is the metadata-derived value of `ordered_metadata`, so on a
collision the metadata value wins and the transcript value is dropped. -/
theorem inject_metadata_key_order :
    (∀ (data : JObj) (metadata : Dict) (model : Txt),
      (data.map Prod.fst).Nodup →
      (inject_metadata data metadata model).map Prod.fst
        = six_keys ++ (data.map Prod.fst).filter (fun k => decide (k ∉ six_keys)))
    ∧ (∀ (data : JObj) (metadata : Dict) (model : Txt) (k : Txt) (v : JVal),
      alookup (ordered_metadata metadata model) k = some v →
      alookup (inject_metadata data metadata model) k = some v) := by
  constructor
  · intro data metadata model hnodup
    rw [inject_metadata, add_remaining_keys data (ordered_metadata metadata model) hnodup]
    rfl
  · intro data metadata model k v h
    rw [inject_metadata]
    obtain ⟨tail, htail⟩ := add_remaining_prefix data (ordered_metadata metadata model)
    rw [htail]
    exact alookup_append_left _ tail k v h

/-- Witness for C8: the key order at a concrete transcript document with
keys `text, language, title` (the `title` collision is dropped, metadata
`title` wins) and a concrete collision lookup. -/
theorem inject_metadata_key_order_witness :
    (inject_metadata
        [(("text").data, JVal.strv (("hi").data)),
         (("language").data, JVal.strv (("en").data)),
         (("title").data, JVal.strv (("old").data))]
        [(("title").data, some (("new").data))] (("whisper").data)).map Prod.fst
      = six_keys ++ [("text").data, ("language").data]
    ∧ alookup (inject_metadata
        [(("text").data, JVal.strv (("hi").data)),
         (("language").data, JVal.strv (("en").data)),
         (("title").data, JVal.strv (("old").data))]
        [(("title").data, some (("new").data))] (("whisper").data)) (("title").data)
      = some (JVal.strv (("new").data)) := by
  constructor
  · have h := inject_metadata_key_order.1
      [(("text").data, JVal.strv (("hi").data)),
       (("language").data, JVal.strv (("en").data)),
       (("title").data, JVal.strv (("old").data))]
      [(("title").data, some (("new").data))] (("whisper").data)
      (by decide)
    rw [h]
    rfl
  · exact inject_metadata_key_order.2
      [(("text").data, JVal.strv (("hi").data)),
       (("language").data, JVal.strv (("en").data)),
       (("title").data, JVal.strv (("old").data))]
      [(("title").data, some (("new").data))] (("whisper").data)
      (("title").data) (JVal.strv (("new").data)) rfl

/-! ## Sanitizer and default metadata (`utils.sanitize_filename`,
`processor.process` lines 43-52) -/

/-- The characters removed by `utils.sanitize_filename`
(`re.sub(r'[\\/*?:"<>|]', "", name)`). -/
def illegal_filename_chars : List Char :=
  ['\\', '/', '*', '?', ':', '"', '<', '>', '|']

/-- `utils.sanitize_filename`: drop every filesystem-illegal character. -/
def sanitize_filename (name : Txt) : Txt :=
  name.filter (fun c => decide (c ∉ illegal_filename_chars))

/-- The default metadata record synthesized by `processor.process` when the
metadata dict is empty: the title is
`os.path.splitext(os.path.basename(input_path))[0]` — note: not sanitized. -/
def default_local_metadata (input_path : Txt) : Dict :=
  [(("title").data, some (split_ext_base (basename input_path))),
   (("description").data, some []),
   (("uploader").data, some []),
   (("upload_date").data, some []),
   (("id").data, some [])]

/-- `processor.process` lines 44-52: `if not metadata:` synthesize the
default record, else keep the metadata as is. -/
def metadata_after_default (metadata : Dict) (input_path : Txt) : Dict :=
  if metadata.isEmpty then default_local_metadata input_path else metadata

/-! ## Claim C9 -/

/-- Counterexample to C9 as stated: for the local input `"a?b.mp3"` the
synthesized title is the raw extension-stripped base name `"a?b"`, which
still contains the filesystem-illegal `?`; the sanitized base name would be
`"ab"`. -/
theorem default_title_not_sanitized :
    dictGet (metadata_after_default [] (("a?b.mp3").data)) (("title").data)
      = some (("a?b").data)
    ∧ sanitize_filename (("a?b").data) = ("ab").data
    ∧ (("a?b").data : Txt) ≠ ("ab").data := by
  refine ⟨by decide, by decide, by decide⟩

/-- Claim C9 (amended): when the metadata record is empty after audio
preparation (no caller override, no acquired metadata), the orchestrator
synthesizes a record whose title is the extension-stripped base name of the
source reference, with no sanitization applied — it coincides with the
sanitized base name exactly when the base name contains no
filesystem-illegal characters. -/
theorem default_title_is_base_name :
    (∀ input_path : Txt,
      dictGet (metadata_after_default [] input_path) (("title").data)
        = some (split_ext_base (basename input_path)))
    ∧ (∀ input_path : Txt,
      sanitize_filename (split_ext_base (basename input_path))
          = split_ext_base (basename input_path) →
      dictGet (metadata_after_default [] input_path) (("title").data)
        = some (sanitize_filename (split_ext_base (basename input_path)))) := by
  constructor
  · intro input_path
    rfl
  · intro input_path hclean
    rw [hclean]
    rfl

/-- Witness for C9 (amended): the clean-name case at the concrete input
`"talk.mp3"`, whose base name `"talk"` is unchanged by sanitization. -/
theorem default_title_is_base_name_witness :
    dictGet (metadata_after_default [] (("talk.mp3").data)) (("title").data)
      = some (sanitize_filename (split_ext_base (basename (("talk.mp3").data)))) :=
  default_title_is_base_name.2 (("talk.mp3").data) (by decide)

/-! ## Upload-date reformatting (`download.download_youtube`,
`download.iter_playlist_entries`) -/

/-- The reformatting applied to `upload_date` in both `download_youtube` and
`iter_playlist_entries`: a truthy 8-character `YYYYMMDD` string becomes
`DD.MM.YYYY` (`day = raw[6:8]`, `month = raw[4:6]`, `year = raw[:4]`),
anything else (absent, `None`, or another length) becomes `''`. -/
def format_upload_date (raw : Option Txt) : Txt :=
  match raw with
  | none => []
  | some s =>
    if !s.isEmpty && decide (s.length = 8) then
      ((s.drop 6).take 2) ++ '.' :: ((s.drop 4).take 2) ++ '.' :: (s.take 4)
    else []

/-- A raw playlist entry as found in a probed playlist's `entries` list. -/
structure RawPlaylistEntry where
  id : Option Txt
  title : Option Txt
  uploader : Option Txt
  upload_date : Option Txt
  description : Option Txt
  url : Option Txt
deriving DecidableEq

/-- The url prefix used for the fallback watch url in
`iter_playlist_entries`. -/
def watch_url_base : Txt := ("https://www.youtube.com/watch?v=").data

/-- The per-entry dict yielded by `download.iter_playlist_entries`:
`url = entry.get('url') or (watch url from id if id else None)`, and
`upload_date` reformatted by `format_upload_date`. -/
def iter_entry (e : RawPlaylistEntry) : PlaylistEntry :=
  let vid := e.id
  { id := vid
  , title := e.title
  , uploader := e.uploader
  , upload_date := format_upload_date e.upload_date
  , description := e.description
  , url :=
      if truthy e.url then e.url
      else
        match vid with
        | some v => if !v.isEmpty then some (watch_url_base ++ v) else none
        | none => none }

/-- `download.iter_playlist_entries` over the probed entries list: falsy
entries (`None`) are skipped, the rest are reshaped by `iter_entry`. -/
def iter_playlist_entries (entries : List (Option RawPlaylistEntry)) :
    List PlaylistEntry :=
  entries.filterMap (fun oe => oe.map iter_entry)

/-- The output directory name built by `utils.create_output_directory`:
`f"{date_str}-{sanitized_title[:40]}"` — the date stamp keeps its raw
`YYYYMMDD` form. -/
def output_dir_name (date_str title : Txt) : Txt :=
  date_str ++ '-' :: (sanitize_filename title).take 40

/-! ## Claim C10 -/

/-- Claim C10: an 8-character upload date `YYYYMMDD` is reformatted to
`DD.MM.YYYY` (10 characters, so never the raw 8-character form); an absent or
differently-sized upload date becomes the empty string; the playlist entry
that reaches the batch metadata override carries exactly this reformatted
value; and the directory name keeps the raw date stamp as its prefix. -/
theorem upload_date_reformatting :
    (∀ s : Txt, s.length = 8 →
      format_upload_date (some s)
          = ((s.drop 6).take 2) ++ '.' :: ((s.drop 4).take 2) ++ '.' :: (s.take 4)
      ∧ (format_upload_date (some s)).length = 10
      ∧ format_upload_date (some s) ≠ s)
    ∧ (∀ s : Txt, s.length ≠ 8 → format_upload_date (some s) = [])
    ∧ format_upload_date none = []
    ∧ (∀ e : RawPlaylistEntry,
      (iter_entry e).upload_date = format_upload_date e.upload_date
      ∧ dictGet (entry_metadata (iter_entry e)) (("upload_date").data)
          = some (format_upload_date e.upload_date))
    ∧ format_upload_date (some (("20240131").data)) = ("31.01.2024").data
    ∧ (∀ date_str title : Txt,
      (output_dir_name date_str title).take date_str.length = date_str) := by
  refine ⟨?_, ?_, rfl, ?_, by decide, ?_⟩
  · intro s hlen
    have hempty : s.isEmpty = false := by
      cases s with
      | nil => simp at hlen
      | cons a t => rfl
    have hcond : (!s.isEmpty && decide (s.length = 8)) = true := by
      rw [hempty, hlen]
      simp
    have heq : format_upload_date (some s)
        = ((s.drop 6).take 2) ++ '.' :: ((s.drop 4).take 2) ++ '.' :: (s.take 4) := by
      rw [format_upload_date, if_pos hcond]
    refine ⟨heq, ?_, ?_⟩
    · rw [heq]
      simp [List.length_take, List.length_drop, hlen]
    · intro hcontra
      have hlen10 : (format_upload_date (some s)).length = 10 := by
        rw [heq]
        simp [List.length_take, List.length_drop, hlen]
      rw [hcontra, hlen] at hlen10
      simp at hlen10
  · intro s hlen
    have hcond : (!s.isEmpty && decide (s.length = 8)) = false := by
      rw [decide_eq_false hlen]
      simp
    rw [format_upload_date, if_neg (by rw [hcond]; simp)]
  · intro e
    exact ⟨rfl, rfl⟩
  · intro date_str title
    rw [output_dir_name]
    exact List.take_left date_str _

/-- Witness for C10: the reformatting at the concrete date `"20240131"`
(8 characters, becomes `"31.01.2024"` and differs from the raw form), at a
wrongly-sized date, and the raw date stamp kept as the directory-name
prefix. -/
theorem upload_date_reformatting_witness :
    format_upload_date (some (("20240131").data))
        = (((("20240131").data).drop 6).take 2)
            ++ '.' :: (((("20240131").data).drop 4).take 2)
            ++ '.' :: ((("20240131").data).take 4)
    ∧ format_upload_date (some (("2024-01-31").data)) = []
    ∧ (output_dir_name (("20240131").data) (("My/Title").data)).take
        ((("20240131").data).length) = ("20240131").data :=
  ⟨(upload_date_reformatting.1 (("20240131").data) (by decide)).1,
   upload_date_reformatting.2.1 (("2024-01-31").data) (by decide),
   upload_date_reformatting.2.2.2.2.2 (("20240131").data) (("My/Title").data)⟩
